import Mathlib

/-
Verification of the GloPM package-registry core against its design document.

The repository contains two parallel implementations of the same design:
  * a Koa-based one (controllers concatenated in src/src/middlewares/auth.ts),
  * a Hono-based one (src/backend/src/controllers/...), sharing
    src/unnamed/part_003 (gridFS.ts) and src/unnamed/part_002 (auth middleware).

The embedding below is a shallow, executable translation of both controller
families over an explicit store state.  MongoDB documents are modelled as Lean
structures whose optional fields record which implementation wrote them
(Mongo collections are schemaless, so a field a given insertOne does not set
is modelled as none).  ObjectId values are modelled as natural numbers.

Runtime typing of ids is modelled faithfully, because it is load bearing:
  * the Koa authenticate middleware does ctx.state.userId = ctx.get(..),
    where ctx.get returns the raw header STRING, and the TypeScript casts
    (as ObjectId) are erased at runtime;
  * hence Koa publish inserts owner: userId as a BSON string, while the
    backend publish does new ObjectId(header) and inserts a real ObjectId;
  * JavaScript strings have no .equals method, so pkg.owner.equals(userId)
    throws a TypeError (caught, becoming the 500 branch) whenever pkg.owner
    is a BSON string, i.e. whenever the package was created by the Koa
    publish;
  * a MongoDB equality filter does not match across BSON types, so the
    filter owner: new ObjectId(userId) in the Koa removeAccount matches no
    package stored by the Koa publish;
  * the strict comparison pkg.owner !== userId in the Koa deletePackage
    compares two JS strings by value (both operands are strings at runtime).
The type BsonId and its three comparison functions encode exactly these
semantics.
-/

/-- Runtime value of an id-valued BSON field: either a real ObjectId with
value v, or the decimal/hex string rendering of the same value as written by
code that stored a raw string.  The string content is identified with its id
value, since new ObjectId(s) parses the rendering back to the same value. -/
inductive BsonId where
  | oid (v : Nat)
  | str (v : Nat)
deriving DecidableEq

/-- MongoDB query equality between a filter value and a stored field value:
equal only when the BSON types agree and the values agree (Mongo does not
coerce ObjectId to string or back in equality filters). -/
def BsonId.bsonQueryEq : BsonId → BsonId → Bool
  | .oid a, .oid b => a == b
  | .str a, .str b => a == b
  | _, _ => false

/-- Model of the JavaScript call receiver.equals(arg) on an id-valued field:
if the receiver is a BSON string it is a JS string at runtime, which has no
equals method, so the call throws (none).  If the receiver is an ObjectId,
ObjectId.prototype.equals accepts both an ObjectId and its string rendering
and compares by value (some). -/
def BsonId.equalsMethod : BsonId → BsonId → Option Bool
  | .str _, _ => none
  | .oid a, .oid b => some (a == b)
  | .oid a, .str b => some (a == b)

/-- Model of the JavaScript strict comparison owner !== userId where userId
is the raw header string: two JS strings compare by value; an ObjectId object
and a string are of different runtime types, so they are always unequal. -/
def BsonId.jsStrictNeqStr : BsonId → Nat → Bool
  | .str v, u => !(v == u)
  | .oid _, _ => true

/-- Error kinds of section 7 of the design document. -/
inductive ErrKind where
  | notFound
  | conflict
  | forbidden
  | unauthorized
  | invalidInput
  | storageFailure
deriving DecidableEq

/-- Mapping from the error messages the controllers actually emit to the
error kinds of section 7, by the situation each message reports: duplicate
username / duplicate version are Conflict; absent user / package / version
are NotFound; the two ownership refusals are Forbidden; credential failures
are Unauthorized; missing required fields and malformed uploads are
InvalidInput; anything else (the catch-all 500 branches) is StorageFailure. -/
def errKind (msg : String) : ErrKind :=
  if msg == "用户名已存在" || msg == "版本已存在" then .conflict
  else if msg == "用户不存在" || msg == "包不存在" || msg == "版本不存在" then .notFound
  else if msg == "无权限发布此包" || msg == "无权限删除此包" then .forbidden
  else if msg == "缺少 API Key" || msg == "缺少 User ID" || msg == "无效的 User"
       || msg == "错误的 API Key" || msg == "密码错误" || msg == "未认证" then .unauthorized
  else if msg == "文件未上传" || msg == "文件未上传或格式错误"
       || msg == "缺少必要字段" || msg == "缺少用户名或密码" then .invalidInput
  else .storageFailure

/-- A document of the users collection.  createdAt and lastLogin are set by
the Koa register only; the backend register inserts neither field. -/
structure UserDoc where
  _id : Nat
  username : String
  password : String
  apiKey : String
  createdAt : Option Nat
  lastLogin : Option Nat
deriving DecidableEq

/-- A document of the packages collection.  The downloads field is set (to 0)
by the Koa publish only. -/
structure PackageDoc where
  _id : Nat
  name : String
  description : String
  owner : BsonId
  createdAt : Nat
  updatedAt : Nat
  downloads : Option Nat
deriving DecidableEq

/-- A document of the versions collection.  sha256 and downloads are set by
the Koa publish only; the backend publish inserts neither field.  filePath
holds the hex rendering of the GridFS file id, modelled by the id value. -/
structure VersionDoc where
  _id : Nat
  package : Nat
  version : String
  description : String
  sha256 : Option Nat
  fileSize : Nat
  filePath : Nat
  filename : String
  publishedBy : BsonId
  publishedAt : Nat
  downloads : Option Nat
deriving DecidableEq

/-- The whole store: the three document collections, the GridFS blob store
(file id paired with the stored bytes), and the generator of fresh ObjectId
values.  Lists keep insertion order; findOne scans from the head, matching
the natural order MongoDB uses for unindexed collections. -/
structure RegState where
  users : List UserDoc
  packages : List PackageDoc
  versions : List VersionDoc
  blobs : List (Nat × List Nat)
  nextId : Nat
deriving DecidableEq

/-- JavaScript truthiness of a possibly missing form/body string field:
falsy exactly when the field is absent or the empty string. -/
def truthy (o : Option String) : Bool :=
  !((o.getD "").isEmpty)

/-- Characters of the last path component: the accumulator is reset at every
slash, so the result is what follows the final slash. -/
def baseChars : List Char → List Char → List Char
  | cur, [] => cur
  | cur, c :: cs => if c == '/' then baseChars [] cs else baseChars (cur ++ [c]) cs

/-- Model of path.basename as used on the formidable upload filepath. -/
def basename (p : String) : String :=
  String.mk (baseChars [] p.data)

/-- Whether pat is a leading segment of hay. -/
def leadsWith : List Char → List Char → Bool
  | [], _ => true
  | _ :: _, [] => false
  | a :: as, b :: bs => a == b && leadsWith as bs

/-- Whether pat occurs in hay as a contiguous run (an empty pat matches). -/
def occursIn (pat : List Char) : List Char → Bool
  | [] => leadsWith pat []
  | c :: t => leadsWith pat (c :: t) || occursIn pat t

/-- Case-insensitive substring match, modelling the search regex filter
name: regex query with option i for queries without regex metacharacters. -/
def ciContains (hay pat : String) : Bool :=
  occursIn (pat.data.map Char.toLower) (hay.data.map Char.toLower)

/-- updateOne semantics: rewrite the first element matching the filter. -/
def updateFirst (p : α → Bool) (f : α → α) : List α → List α
  | [] => []
  | x :: xs => if p x then f x :: xs else x :: updateFirst p f xs

/-- deleteOne semantics: remove the first element matching the filter. -/
def deleteFirst (p : α → Bool) : List α → List α
  | [] => []
  | x :: xs => if p x then xs else x :: deleteFirst p xs

/-- Head of the version list sorted descending by publishedAt (the code runs
find.sort publishedAt: -1 with limit 1): the first listed version holding the
maximal publishedAt, which is what a stable descending sort puts first. -/
def latestOf : List VersionDoc → Option VersionDoc
  | [] => none
  | v :: vs =>
    match latestOf vs with
    | none => some v
    | some w => if v.publishedAt < w.publishedAt then some w else some v

/-- An HTTP-level controller outcome: a success payload with its status, or
an error status with the message emitted by the code (the message identifies
the branch; errKind maps it to a section-7 kind). -/
inductive ApiResult (α : Type) where
  | ok (status : Nat) (payload : α)
  | err (status : Nat) (msg : String)
deriving DecidableEq

structure RegisterOk where
  userId : Nat
  apiKey : String
deriving DecidableEq

structure LoginOk where
  userId : Nat
  apiKey : String
deriving DecidableEq

structure PublishOk where
  versionId : Nat
deriving DecidableEq

/-- Payload of a successful download: the id of the blob the read stream is
opened on, and the filename sent in the content disposition header. -/
structure DownloadPayload where
  blobId : Nat
  filename : String
deriving DecidableEq

inductive LatestResult where
  | noVersions
  | found (v : VersionDoc)
deriving DecidableEq

/-- Outcome of a publish pipeline: its result, the store state at the moment
just after the GridFS write completed (equal to the state at the failure
point when no blob was written), and the final state.  Keeping the
intermediate state explicit makes the blob-before-metadata ordering of the
code a provable statement. -/
structure PubOut where
  res : ApiResult PublishOk
  afterBlob : RegState
  final : RegState
deriving DecidableEq

/-- The upload of the Koa variant as parsed by koa-body/formidable: a temp
filepath plus the bytes read back from it. -/
structure KoaFile where
  filepath : String
  bytes : List Nat
deriving DecidableEq

/-- A multipart field of the Hono variant: an actual File object with a name
and bytes, or a non-File value (a plain string field). -/
inductive FileField where
  | file (name : String) (bytes : List Nat)
  | notFile
deriving DecidableEq

/-- Model of saveFileToGridFS (src/unnamed/part_003): stream the buffer into
the bucket and resolve with the id of the new GridFS file.  The GridFS
filename and metadata options are stored but never read back by any
controller, so only the bytes are kept. -/
def saveFileToGridFS (s : RegState) (buf : List Nat) : Nat × RegState :=
  (s.nextId, { s with blobs := s.blobs ++ [(s.nextId, buf)], nextId := s.nextId + 1 })

namespace Koa

/-- Koa AuthController.register: reject an existing username with 400
(the duplicate-username Conflict kind), else store the bcrypt hash of the
password, a fresh api key, createdAt and lastLogin, and return id and key.
The one-way password hash and the generated key are inputs of the model. -/
def register (s : RegState) (username password : String)
    (pwHash : String → String) (apiKey : String) (now : Nat) :
    ApiResult RegisterOk × RegState :=
  match s.users.find? (fun u => u.username == username) with
  | some _ => (.err 400 "用户名已存在", s)
  | none =>
    let uid := s.nextId
    (.ok 201 ⟨uid, apiKey⟩,
     { s with
        users := s.users ++ [⟨uid, username, pwHash password, apiKey, some now, some now⟩],
        nextId := s.nextId + 1 })

/-- Koa AuthController.login: 401 when the username is absent (the
user-absent NotFound kind of section 7, rendered 401 by this controller),
401 when the password does not verify, else update lastLogin and return the
stored api key.  bcrypt.compare is modelled as agreement with the one-way
hash model used at registration. -/
def login (s : RegState) (username password : String)
    (pwHash : String → String) (now : Nat) :
    ApiResult LoginOk × RegState :=
  match s.users.find? (fun u => u.username == username) with
  | none => (.err 401 "用户不存在", s)
  | some user =>
    if pwHash password != user.password then (.err 401 "密码错误", s)
    else
      (.ok 200 ⟨user._id, user.apiKey⟩,
       { s with
          users := updateFirst (fun u => u._id == user._id)
            (fun u => { u with lastLogin := some now }) s.users })

/-- Koa AuthController.removeAccount: delete the user document by ObjectId,
then deleteMany packages with filter owner: new ObjectId(userId).  The
filter value is an ObjectId while every owner stored by the Koa publish is a
BSON string, so by type-sensitive Mongo equality the deleteMany matches
those packages never.  Versions and blobs are not touched by this code. -/
def removeAccount (s : RegState) (userId : Nat) : ApiResult Unit × RegState :=
  (.ok 200 (),
   { s with
      users := deleteFirst (fun u => u._id == userId) s.users,
      packages := s.packages.filter
        (fun p => !(BsonId.bsonQueryEq (BsonId.oid userId) p.owner)) })

/-- Tail of the Koa publish after the package is resolved: duplicate-version
check, sha256 digest of the buffer, GridFS write, version insert.  The order
digest / blob write / metadata insert follows the await order of the code. -/
def publishTail (hash : List Nat → Nat) (s : RegState) (pkgId userId : Nat)
    (ver descr fileName : String) (fileBuffer : List Nat) (now : Nat) : PubOut :=
  match s.versions.find? (fun v => v.package == pkgId && v.version == ver) with
  | some _ => ⟨.err 400 "版本已存在", s, s⟩
  | none =>
    let digest := hash fileBuffer
    let fidState := saveFileToGridFS s fileBuffer
    let sB := fidState.2
    let vid := sB.nextId
    ⟨.ok 200 ⟨vid⟩, sB,
     { sB with
        versions := sB.versions ++
          [⟨vid, pkgId, ver, descr, some digest, fileBuffer.length, fidState.1,
            fileName, BsonId.str userId, now, some 0⟩],
        nextId := sB.nextId + 1 }⟩

/-- Koa PackageController.publish.  userId is the raw header string set by
the middleware into ctx.state (value modelled as a Nat).  When the package
exists, the code calls pkg.owner.equals(userId); on every package the Koa
publish itself created the owner is a BSON string, so that call throws and
the catch turns it into the 500 branch.  When the package is absent it is
created with owner := the string userId. -/
def publishCore (hash : List Nat → Nat) (s : RegState) (userId : Nat)
    (packageName ver descr : String) (file : Option KoaFile) (now : Nat) : PubOut :=
  match file with
  | none => ⟨.err 400 "文件未上传", s, s⟩
  | some f =>
    let fileName := basename f.filepath
    match s.packages.find? (fun p => p.name == packageName) with
    | some pkg =>
      match BsonId.equalsMethod pkg.owner (BsonId.str userId) with
      | none => ⟨.err 500 "pkg.owner.equals is not a function", s, s⟩
      | some isOwner =>
        if !isOwner then ⟨.err 403 "无权限发布此包", s, s⟩
        else publishTail hash s pkg._id userId ver descr fileName f.bytes now
    | none =>
      let pkgId := s.nextId
      let s1 : RegState :=
        { s with
            packages := s.packages ++
              [⟨pkgId, packageName, descr, BsonId.str userId, now, now, some 0⟩],
            nextId := s.nextId + 1 }
      publishTail hash s1 pkgId userId ver descr fileName f.bytes now

/-- The observable behaviour of the Koa publish: result and final state. -/
def publish (hash : List Nat → Nat) (s : RegState) (userId : Nat)
    (packageName ver descr : String) (file : Option KoaFile) (now : Nat) :
    ApiResult PublishOk × RegState :=
  ((publishCore hash s userId packageName ver descr file now).res,
   (publishCore hash s userId packageName ver descr file now).final)

/-- The store as left by a crash between the GridFS write and the version
insertOne of the Koa publish. -/
def publishCrashAfterBlob (hash : List Nat → Nat) (s : RegState) (userId : Nat)
    (packageName ver descr : String) (file : Option KoaFile) (now : Nat) : RegState :=
  (publishCore hash s userId packageName ver descr file now).afterBlob

/-- Koa PackageController.deletePackage: 404 when the package is absent,
403 when pkg.owner !== userId (a strict JS comparison between the stored
owner and the raw header string), else deleteOne the package document only
(versions and blobs are left in place by this code). -/
def deletePackage (s : RegState) (userId : Nat) (packageName : String) :
    ApiResult Unit × RegState :=
  match s.packages.find? (fun p => p.name == packageName) with
  | none => (.err 404 "包不存在", s)
  | some pkg =>
    if BsonId.jsStrictNeqStr pkg.owner userId then (.err 403 "无权限删除此包", s)
    else
      (.ok 200 (),
       { s with packages := deleteFirst (fun p => p._id == pkg._id) s.packages })

end Koa

namespace Hono

/-- Backend AuthController.register: reject only missing username/password;
there is no duplicate-username lookup in this controller.  The user document
is stored with the argon2 hash of the password and the generated api key and
without createdAt or lastLogin fields. -/
def register (s : RegState) (username password : Option String)
    (pwHash : String → String) (apiKey : String) :
    ApiResult RegisterOk × RegState :=
  if !(truthy username && truthy password) then (.err 400 "缺少用户名或密码", s)
  else
    let uid := s.nextId
    (.ok 201 ⟨uid, apiKey⟩,
     { s with
        users := s.users ++
          [⟨uid, username.getD "", pwHash (password.getD ""), apiKey, none, none⟩],
        nextId := s.nextId + 1 })

/-- Backend AuthController.login: 400 on missing fields, 404 when the
username is absent, 401 when the password does not verify, else return id
and api key.  No lastLogin update is performed by this controller. -/
def login (s : RegState) (username password : Option String)
    (pwHash : String → String) :
    ApiResult LoginOk × RegState :=
  if !(truthy username && truthy password) then (.err 400 "缺少用户名或密码", s)
  else
    match s.users.find? (fun u => u.username == username.getD "") with
    | none => (.err 404 "用户不存在", s)
    | some user =>
      if pwHash (password.getD "") != user.password then (.err 401 "密码错误", s)
      else (.ok 200 ⟨user._id, user.apiKey⟩, s)

/-- Backend AuthController.removeAccount: deleteOne the user document; no
package, version or blob is touched by this controller. -/
def removeAccount (s : RegState) (userId : Nat) : ApiResult Unit × RegState :=
  (.ok 200 (), { s with users := deleteFirst (fun u => u._id == userId) s.users })

/-- Tail of the backend publish after the package is resolved:
duplicate-version check, GridFS write, version insert.  No digest is
computed and the inserted version document has no sha256 and no downloads
field. -/
def publishTail (s : RegState) (pkgId userId : Nat)
    (ver descr fileName : String) (fileBuffer : List Nat) (now : Nat) : PubOut :=
  match s.versions.find? (fun v => v.package == pkgId && v.version == ver) with
  | some _ => ⟨.err 400 "版本已存在", s, s⟩
  | none =>
    let fidState := saveFileToGridFS s fileBuffer
    let sB := fidState.2
    let vid := sB.nextId
    ⟨.ok 200 ⟨vid⟩, sB,
     { sB with
        versions := sB.versions ++
          [⟨vid, pkgId, ver, descr, none, fileBuffer.length, fidState.1,
            fileName, BsonId.oid userId, now, none⟩],
        nextId := sB.nextId + 1 }⟩

/-- Backend PackageController.publish.  userId is new ObjectId(header), a
real ObjectId; required form fields are falsiness-checked before the file
check, and both checks precede every store access.  Owner comparison is
ObjectId.prototype.equals, by value. -/
def publishCore (s : RegState) (userId : Nat)
    (packageName ver descr : Option String) (file : Option FileField) (now : Nat) : PubOut :=
  if !(truthy packageName && truthy ver && truthy descr) then
    ⟨.err 400 "缺少必要字段", s, s⟩
  else
    match file with
    | some (.file fname fileBuffer) =>
      (match s.packages.find? (fun p => p.name == packageName.getD "") with
       | some pkg =>
         match BsonId.equalsMethod pkg.owner (BsonId.oid userId) with
         | none => ⟨.err 500 "pkg.owner.equals is not a function", s, s⟩
         | some isOwner =>
           if !isOwner then ⟨.err 403 "无权限发布此包", s, s⟩
           else
             publishTail s pkg._id userId (ver.getD "") (descr.getD "")
               fname fileBuffer now
       | none =>
         let pkgId := s.nextId
         let s1 : RegState :=
           { s with
              packages := s.packages ++
                [⟨pkgId, packageName.getD "", descr.getD "", BsonId.oid userId,
                  now, now, none⟩],
              nextId := s.nextId + 1 }
         publishTail s1 pkgId userId (ver.getD "") (descr.getD "") fname fileBuffer now)
    | _ => ⟨.err 400 "文件未上传或格式错误", s, s⟩

/-- The observable behaviour of the backend publish: result and final state. -/
def publish (s : RegState) (userId : Nat)
    (packageName ver descr : Option String) (file : Option FileField) (now : Nat) :
    ApiResult PublishOk × RegState :=
  ((publishCore s userId packageName ver descr file now).res,
   (publishCore s userId packageName ver descr file now).final)

/-- The store as left by a crash between the GridFS write and the version
insertOne of the backend publish. -/
def publishCrashAfterBlob (s : RegState) (userId : Nat)
    (packageName ver descr : Option String) (file : Option FileField) (now : Nat) : RegState :=
  (publishCore s userId packageName ver descr file now).afterBlob

/-- Backend PackageController.deletePackage: 404 when the package is absent,
403 when pkg.owner.equals(userId) is false, else deleteOne the package
document only. -/
def deletePackage (s : RegState) (userId : Nat) (packageName : String) :
    ApiResult Unit × RegState :=
  match s.packages.find? (fun p => p.name == packageName) with
  | none => (.err 404 "包不存在", s)
  | some pkg =>
    match BsonId.equalsMethod pkg.owner (BsonId.oid userId) with
    | none => (.err 500 "pkg.owner.equals is not a function", s)
    | some isOwner =>
      if !isOwner then (.err 403 "无权限删除此包", s)
      else
        (.ok 200 (),
         { s with packages := deleteFirst (fun p => p._id == pkg._id) s.packages })

end Hono

/-- PackageController.download, identical store logic in both controllers:
find the package by name, find the version by (package id, version string),
open a read stream on the GridFS file named by the filePath of the version.
Neither controller performs any write here; in particular no downloads
counter is updated. -/
def download (s : RegState) (packageName ver : String) :
    ApiResult DownloadPayload × RegState :=
  match s.packages.find? (fun p => p.name == packageName) with
  | none => (.err 404 "包不存在", s)
  | some pkg =>
    match s.versions.find? (fun v => v.package == pkg._id && v.version == ver) with
    | none => (.err 404 "版本不存在", s)
    | some vinfo => (.ok 200 ⟨vinfo.filePath, vinfo.filename⟩, s)

/-- GridFS file resolution: the stored bytes of the file with the given id,
when present (file ids are unique, so first match suffices). -/
def lookupBlob (k : Nat) : List (Nat × List Nat) → Option (List Nat)
  | [] => none
  | e :: es => if e.1 == k then some e.2 else lookupBlob k es

/-- The bytes the download response body streams: the blob store content at
the id the read stream was opened on. -/
def servedBytes (s : RegState) (p : DownloadPayload) : Option (List Nat) :=
  lookupBlob p.blobId s.blobs

/-- The version document the download of (packageName, ver) resolves, when
any: the same two findOne calls the download performs. -/
def versionLookup (s : RegState) (packageName ver : String) : Option VersionDoc :=
  match s.packages.find? (fun p => p.name == packageName) with
  | none => none
  | some pkg => s.versions.find? (fun v => v.package == pkg._id && v.version == ver)

/-- PackageController.searchPackages, identical in both controllers:
case-insensitive substring filter on the package name. -/
def searchPackages (s : RegState) (query : String) : List PackageDoc :=
  s.packages.filter (fun p => ciContains p.name query)

/-- PackageController.getLatestVersion, identical in both controllers: 404
when the package is absent; otherwise sort its versions descending by
publishedAt and take the first, or answer the explicit no-versions message
when there are none. -/
def getLatestVersion (s : RegState) (packageName : String) :
    ApiResult LatestResult × RegState :=
  match s.packages.find? (fun p => p.name == packageName) with
  | none => (.err 404 "包不存在", s)
  | some pkg =>
    match latestOf (s.versions.filter (fun v => v.package == pkg._id)) with
    | none => (.ok 200 .noVersions, s)
    | some v => (.ok 200 (.found v), s)

/-- Traces of the service: every state reachable from the empty store by the
state-changing operations of either controller family, including a publish
interrupted between its GridFS write and its version insertOne.  The
read-only operations (download, searchPackages, getLatestVersion, version
listing) return the state unchanged and need no step.  hash is the digest
function threaded to the Koa publish. -/
inductive Reachable (hash : List Nat → Nat) : RegState → Prop where
  | init : Reachable hash ⟨[], [], [], [], 0⟩
  | koaRegister (s : RegState) (un pw : String) (pwh : String → String)
      (key : String) (now : Nat) :
      Reachable hash s → Reachable hash (Koa.register s un pw pwh key now).2
  | koaLogin (s : RegState) (un pw : String) (pwh : String → String) (now : Nat) :
      Reachable hash s → Reachable hash (Koa.login s un pw pwh now).2
  | koaRemoveAccount (s : RegState) (u : Nat) :
      Reachable hash s → Reachable hash (Koa.removeAccount s u).2
  | koaPublish (s : RegState) (u : Nat) (pn ver d : String)
      (file : Option KoaFile) (now : Nat) :
      Reachable hash s → Reachable hash (Koa.publish hash s u pn ver d file now).2
  | koaPublishCrash (s : RegState) (u : Nat) (pn ver d : String)
      (file : Option KoaFile) (now : Nat) :
      Reachable hash s →
      Reachable hash (Koa.publishCrashAfterBlob hash s u pn ver d file now)
  | koaDeletePackage (s : RegState) (u : Nat) (pn : String) :
      Reachable hash s → Reachable hash (Koa.deletePackage s u pn).2
  | honoRegister (s : RegState) (un pw : Option String) (pwh : String → String)
      (key : String) :
      Reachable hash s → Reachable hash (Hono.register s un pw pwh key).2
  | honoLogin (s : RegState) (un pw : Option String) (pwh : String → String) :
      Reachable hash s → Reachable hash (Hono.login s un pw pwh).2
  | honoRemoveAccount (s : RegState) (u : Nat) :
      Reachable hash s → Reachable hash (Hono.removeAccount s u).2
  | honoPublish (s : RegState) (u : Nat) (pn ver d : Option String)
      (file : Option FileField) (now : Nat) :
      Reachable hash s → Reachable hash (Hono.publish s u pn ver d file now).2
  | honoPublishCrash (s : RegState) (u : Nat) (pn ver d : Option String)
      (file : Option FileField) (now : Nat) :
      Reachable hash s →
      Reachable hash (Hono.publishCrashAfterBlob s u pn ver d file now)
  | honoDeletePackage (s : RegState) (u : Nat) (pn : String) :
      Reachable hash s → Reachable hash (Hono.deletePackage s u pn).2

/-- Every version document resolves to a blob store entry. -/
def versionsResolve (s : RegState) : Prop :=
  ∀ v ∈ s.versions, ∃ b, lookupBlob v.filePath s.blobs = some b

/-- Every version document resolves to a blob store entry whose digest
matches the recorded sha256 whenever one was recorded. -/
def blobInv (hash : List Nat → Nat) (s : RegState) : Prop :=
  ∀ v ∈ s.versions, ∃ b, lookupBlob v.filePath s.blobs = some b ∧
    ∀ h, v.sha256 = some h → hash b = h

/-- Induction invariant for traces: blob ids already in the store are below
the fresh-id counter, and every version resolves to a digest-consistent
blob. -/
def StoreInv (hash : List Nat → Nat) (s : RegState) : Prop :=
  (∀ e ∈ s.blobs, e.1 < s.nextId) ∧ blobInv hash s

/-- The empty store a fresh deployment starts from. -/
def s0 : RegState := ⟨[], [], [], [], 0⟩

/-- A concrete stand-in for the sha256 digest function (the digest algorithm
itself lives in the crypto library, outside this repository; every statement
about digests below is proved for an arbitrary hash function and only
instantiated with hash0 to evaluate witnesses). -/
def hash0 : List Nat → Nat := fun l => l.foldl (fun a b => a + b) 0

/-- A concrete stand-in for the one-way password hash (bcrypt / argon2 live
outside this repository; verification is modelled as agreement of the hash
of the presented password with the stored hash). -/
def pwH0 : String → String := fun p => p ++ "h"

/-- Koa deployment: alice (user id 0) registered on the empty store. -/
def kAlice : RegState := (Koa.register s0 "alice" "pw" pwH0 "key1" 0).2

/-- Koa deployment: alice has published package p at version 1.0.0 with a
three-byte artifact.  Package id 1, blob id 2, version id 3. -/
def kPub1 : RegState :=
  (Koa.publish hash0 kAlice 0 "p" "1.0.0" "d" (some ⟨"a.bin", [1, 2, 3]⟩) 1).2

/-- The version document kPub1 holds. -/
def vKoa1 : VersionDoc := ⟨3, 1, "1.0.0", "d", some 6, 3, 2, "a.bin", BsonId.str 0, 1, some 0⟩

/-- The package document kPub1 holds. -/
def pKoa1 : PackageDoc := ⟨1, "p", "d", BsonId.str 0, 1, 1, some 0⟩

/-- Koa deployment: the store after alice removes her account from kPub1. -/
def kGone : RegState := (Koa.removeAccount kPub1 0).2

/-- Backend deployment: alice (user id 0) registered on the empty store. -/
def hA1 : RegState := (Hono.register s0 (some "alice") (some "pw") pwH0 "k1").2

/-- Backend deployment: alice has published package q at version 1.0.0.
Package id 1, blob id 2, version id 3. -/
def hPub1 : RegState :=
  (Hono.publish hA1 0 (some "q") (some "1.0.0") (some "d") (some (.file "c.bin" [9])) 1).2

/-- Backend deployment: alice has then published q at 1.1.0 at a later time.
Blob id 4, version id 5. -/
def hPub2 : RegState :=
  (Hono.publish hPub1 0 (some "q") (some "1.1.0") (some "d2") (some (.file "e.bin" [7, 7])) 5).2

/-- The q version 1.1.0 document hPub2 holds. -/
def vHono2 : VersionDoc := ⟨5, 1, "1.1.0", "d2", none, 2, 4, "e.bin", BsonId.oid 0, 5, none⟩

lemma lookupBlob_append_of_some (l : List (Nat × List Nat)) (e : Nat × List Nat)
    (k : Nat) (b : List Nat) (h : lookupBlob k l = some b) :
    lookupBlob k (l ++ [e]) = some b := by
  induction l with
  | nil => simp [lookupBlob] at h
  | cons a as ih =>
    rw [List.cons_append]
    cases hEq : (a.1 == k) with
    | true =>
      simp only [lookupBlob, hEq, if_true] at h ⊢
      exact h
    | false =>
      simp only [lookupBlob, hEq, Bool.false_eq_true, if_false] at h ⊢
      exact ih h

lemma lookupBlob_append_fresh (l : List (Nat × List Nat)) (k : Nat) (b : List Nat)
    (h : ∀ e ∈ l, e.1 ≠ k) : lookupBlob k (l ++ [(k, b)]) = some b := by
  induction l with
  | nil => simp [lookupBlob]
  | cons a as ih =>
    have ha : (a.1 == k) = false := by
      simpa using h a (List.mem_cons_self a as)
    rw [List.cons_append]
    simp only [lookupBlob, ha, Bool.false_eq_true, if_false]
    exact ih (fun e he => h e (List.mem_cons_of_mem a he))

lemma storeInv_mono {hash : List Nat → Nat} {s t : RegState}
    (hv : t.versions = s.versions) (hb : t.blobs = s.blobs)
    (hn : s.nextId ≤ t.nextId) (hi : StoreInv hash s) : StoreInv hash t := by
  obtain ⟨h1, h2⟩ := hi
  refine ⟨?_, ?_⟩
  · intro e he
    rw [hb] at he
    exact lt_of_lt_of_le (h1 e he) hn
  · intro v hv'
    rw [hv] at hv'
    rw [hb]
    exact h2 v hv'

lemma koaRegister_storeInv {hash : List Nat → Nat} (s : RegState) (un pw : String)
    (pwh : String → String) (key : String) (now : Nat) (hi : StoreInv hash s) :
    StoreInv hash (Koa.register s un pw pwh key now).2 := by
  unfold Koa.register
  cases hfind : s.users.find? (fun u => u.username == un) with
  | some u => simp only [hfind]; exact hi
  | none => simp only [hfind]; exact @storeInv_mono hash s _ rfl rfl (Nat.le_succ _) hi

lemma koaLogin_storeInv {hash : List Nat → Nat} (s : RegState) (un pw : String)
    (pwh : String → String) (now : Nat) (hi : StoreInv hash s) :
    StoreInv hash (Koa.login s un pw pwh now).2 := by
  unfold Koa.login
  cases hfind : s.users.find? (fun u => u.username == un) with
  | none => simp only [hfind]; exact hi
  | some user =>
    simp only [hfind]
    split
    · exact hi
    · exact storeInv_mono rfl rfl (Nat.le_refl _) hi

lemma koaRemoveAccount_storeInv {hash : List Nat → Nat} (s : RegState) (u : Nat)
    (hi : StoreInv hash s) : StoreInv hash (Koa.removeAccount s u).2 :=
  storeInv_mono rfl rfl (Nat.le_refl _) hi

lemma koaDeletePackage_storeInv {hash : List Nat → Nat} (s : RegState) (u : Nat)
    (pn : String) (hi : StoreInv hash s) :
    StoreInv hash (Koa.deletePackage s u pn).2 := by
  unfold Koa.deletePackage
  cases hfind : s.packages.find? (fun p => p.name == pn) with
  | none => simp only [hfind]; exact hi
  | some pkg =>
    simp only [hfind]
    split
    · exact hi
    · exact storeInv_mono rfl rfl (Nat.le_refl _) hi

lemma koaPublishTail_storeInv {hash : List Nat → Nat} (s : RegState)
    (pkgId userId : Nat) (ver descr fname : String) (buf : List Nat) (now : Nat)
    (hi : StoreInv hash s) :
    StoreInv hash (Koa.publishTail hash s pkgId userId ver descr fname buf now).final ∧
    StoreInv hash (Koa.publishTail hash s pkgId userId ver descr fname buf now).afterBlob := by
  unfold Koa.publishTail
  cases hfind : s.versions.find? (fun v => v.package == pkgId && v.version == ver) with
  | some v => simp only [hfind]; exact ⟨hi, hi⟩
  | none =>
    simp only [hfind, saveFileToGridFS]
    constructor
    · constructor
      · intro e he
        simp only [List.mem_append, List.mem_singleton] at he
        rcases he with he | he
        · exact lt_trans (hi.1 e he) (show s.nextId < s.nextId + 1 + 1 by omega)
        · subst he; exact show s.nextId < s.nextId + 1 + 1 by omega
      · intro v hv
        simp only [List.mem_append, List.mem_singleton] at hv
        rcases hv with hv | hv
        · obtain ⟨b, hb, hsha⟩ := hi.2 v hv
          exact ⟨b, lookupBlob_append_of_some _ _ _ _ hb, hsha⟩
        · subst hv
          refine ⟨buf, ?_, ?_⟩
          · exact lookupBlob_append_fresh _ _ _ (fun e he => Nat.ne_of_lt (hi.1 e he))
          · intro h hsome
            simp only [Option.some.injEq] at hsome
            rw [← hsome]
    · constructor
      · intro e he
        simp only [List.mem_append, List.mem_singleton] at he
        rcases he with he | he
        · exact lt_trans (hi.1 e he) (show s.nextId < s.nextId + 1 by omega)
        · subst he; exact show s.nextId < s.nextId + 1 by omega
      · intro v hv
        obtain ⟨b, hb, hsha⟩ := hi.2 v hv
        exact ⟨b, lookupBlob_append_of_some _ _ _ _ hb, hsha⟩

lemma koaPublishCore_storeInv {hash : List Nat → Nat} (s : RegState) (u : Nat)
    (pn ver d : String) (file : Option KoaFile) (now : Nat) (hi : StoreInv hash s) :
    StoreInv hash (Koa.publishCore hash s u pn ver d file now).final ∧
    StoreInv hash (Koa.publishCore hash s u pn ver d file now).afterBlob := by
  cases file with
  | none => simp only [Koa.publishCore]; exact ⟨hi, hi⟩
  | some f =>
    cases hfind : s.packages.find? (fun p => p.name == pn) with
    | some pkg =>
      cases heq : BsonId.equalsMethod pkg.owner (BsonId.str u) with
      | none => simp only [Koa.publishCore, hfind, heq]; exact ⟨hi, hi⟩
      | some isOwner =>
        cases isOwner with
        | false => simp only [Koa.publishCore, hfind, heq]; exact ⟨hi, hi⟩
        | true =>
          simp only [Koa.publishCore, hfind, heq, Bool.not_true, Bool.false_eq_true,
            if_false]
          exact koaPublishTail_storeInv _ _ _ _ _ _ _ _ hi
    | none =>
      simp only [Koa.publishCore, hfind]
      exact koaPublishTail_storeInv _ _ _ _ _ _ _ _
        (@storeInv_mono hash s _ rfl rfl (Nat.le_succ _) hi)

lemma honoRegister_storeInv {hash : List Nat → Nat} (s : RegState)
    (un pw : Option String) (pwh : String → String) (key : String)
    (hi : StoreInv hash s) : StoreInv hash (Hono.register s un pw pwh key).2 := by
  unfold Hono.register
  split
  · exact hi
  · exact @storeInv_mono hash s _ rfl rfl (Nat.le_succ _) hi

lemma honoLogin_storeInv {hash : List Nat → Nat} (s : RegState)
    (un pw : Option String) (pwh : String → String) (hi : StoreInv hash s) :
    StoreInv hash (Hono.login s un pw pwh).2 := by
  unfold Hono.login
  split
  · exact hi
  · cases hfind : s.users.find? (fun v => v.username == un.getD "") with
    | none => simp only [hfind]; exact hi
    | some user =>
      simp only [hfind]
      split
      · exact hi
      · exact hi

lemma honoRemoveAccount_storeInv {hash : List Nat → Nat} (s : RegState) (u : Nat)
    (hi : StoreInv hash s) : StoreInv hash (Hono.removeAccount s u).2 :=
  storeInv_mono rfl rfl (Nat.le_refl _) hi

lemma honoDeletePackage_storeInv {hash : List Nat → Nat} (s : RegState) (u : Nat)
    (pn : String) (hi : StoreInv hash s) :
    StoreInv hash (Hono.deletePackage s u pn).2 := by
  unfold Hono.deletePackage
  cases hfind : s.packages.find? (fun p => p.name == pn) with
  | none => simp only [hfind]; exact hi
  | some pkg =>
    cases heq : BsonId.equalsMethod pkg.owner (BsonId.oid u) with
    | none => simp only [hfind, heq]; exact hi
    | some isOwner =>
      simp only [hfind, heq]
      split
      · exact hi
      · exact storeInv_mono rfl rfl (Nat.le_refl _) hi

lemma honoPublishTail_storeInv {hash : List Nat → Nat} (s : RegState)
    (pkgId userId : Nat) (ver descr fname : String) (buf : List Nat) (now : Nat)
    (hi : StoreInv hash s) :
    StoreInv hash (Hono.publishTail s pkgId userId ver descr fname buf now).final ∧
    StoreInv hash (Hono.publishTail s pkgId userId ver descr fname buf now).afterBlob := by
  unfold Hono.publishTail
  cases hfind : s.versions.find? (fun v => v.package == pkgId && v.version == ver) with
  | some v => simp only [hfind]; exact ⟨hi, hi⟩
  | none =>
    simp only [hfind, saveFileToGridFS]
    constructor
    · constructor
      · intro e he
        simp only [List.mem_append, List.mem_singleton] at he
        rcases he with he | he
        · exact lt_trans (hi.1 e he) (show s.nextId < s.nextId + 1 + 1 by omega)
        · subst he; exact show s.nextId < s.nextId + 1 + 1 by omega
      · intro v hv
        simp only [List.mem_append, List.mem_singleton] at hv
        rcases hv with hv | hv
        · obtain ⟨b, hb, hsha⟩ := hi.2 v hv
          exact ⟨b, lookupBlob_append_of_some _ _ _ _ hb, hsha⟩
        · subst hv
          refine ⟨buf, ?_, ?_⟩
          · exact lookupBlob_append_fresh _ _ _ (fun e he => Nat.ne_of_lt (hi.1 e he))
          · intro h hsome
            simp at hsome
    · constructor
      · intro e he
        simp only [List.mem_append, List.mem_singleton] at he
        rcases he with he | he
        · exact lt_trans (hi.1 e he) (show s.nextId < s.nextId + 1 by omega)
        · subst he; exact show s.nextId < s.nextId + 1 by omega
      · intro v hv
        obtain ⟨b, hb, hsha⟩ := hi.2 v hv
        exact ⟨b, lookupBlob_append_of_some _ _ _ _ hb, hsha⟩

lemma honoPublishCore_storeInv {hash : List Nat → Nat} (s : RegState) (u : Nat)
    (pn ver d : Option String) (file : Option FileField) (now : Nat)
    (hi : StoreInv hash s) :
    StoreInv hash (Hono.publishCore s u pn ver d file now).final ∧
    StoreInv hash (Hono.publishCore s u pn ver d file now).afterBlob := by
  unfold Hono.publishCore
  split
  · exact ⟨hi, hi⟩
  · cases file with
    | none => exact ⟨hi, hi⟩
    | some ff =>
      cases ff with
      | notFile => exact ⟨hi, hi⟩
      | file fname buf =>
        cases hfind : s.packages.find? (fun p => p.name == pn.getD "") with
        | some pkg =>
          cases heq : BsonId.equalsMethod pkg.owner (BsonId.oid u) with
          | none => simp only [hfind, heq]; exact ⟨hi, hi⟩
          | some isOwner =>
            cases isOwner with
            | false => simp only [hfind, heq]; exact ⟨hi, hi⟩
            | true =>
              simp only [hfind, heq, Bool.not_true, Bool.false_eq_true, if_false]
              exact honoPublishTail_storeInv _ _ _ _ _ _ _ _ hi
        | none =>
          simp only [hfind]
          exact honoPublishTail_storeInv _ _ _ _ _ _ _ _
            (@storeInv_mono hash s _ rfl rfl (Nat.le_succ _) hi)

/-- Along every trace the store invariant holds. -/
lemma reachable_storeInv {hash : List Nat → Nat} {s : RegState}
    (h : Reachable hash s) : StoreInv hash s := by
  induction h with
  | init =>
    refine ⟨?_, ?_⟩
    · intro e he; simp at he
    · intro v hv; simp at hv
  | koaRegister s un pw pwh key now _ ih => exact koaRegister_storeInv s un pw pwh key now ih
  | koaLogin s un pw pwh now _ ih => exact koaLogin_storeInv s un pw pwh now ih
  | koaRemoveAccount s u _ ih => exact koaRemoveAccount_storeInv s u ih
  | koaPublish s u pn ver d file now _ ih =>
    exact (koaPublishCore_storeInv s u pn ver d file now ih).1
  | koaPublishCrash s u pn ver d file now _ ih =>
    exact (koaPublishCore_storeInv s u pn ver d file now ih).2
  | koaDeletePackage s u pn _ ih => exact koaDeletePackage_storeInv s u pn ih
  | honoRegister s un pw pwh key _ ih => exact honoRegister_storeInv s un pw pwh key ih
  | honoLogin s un pw pwh _ ih => exact honoLogin_storeInv s un pw pwh ih
  | honoRemoveAccount s u _ ih => exact honoRemoveAccount_storeInv s u ih
  | honoPublish s u pn ver d file now _ ih =>
    exact (honoPublishCore_storeInv s u pn ver d file now ih).1
  | honoPublishCrash s u pn ver d file now _ ih =>
    exact (honoPublishCore_storeInv s u pn ver d file now ih).2
  | honoDeletePackage s u pn _ ih => exact honoDeletePackage_storeInv s u pn ih

lemma latestOf_cons_none (a : VersionDoc) (as : List VersionDoc)
    (hr : latestOf as = none) : latestOf (a :: as) = some a := by
  unfold latestOf
  rw [hr]

lemma latestOf_cons_some (a : VersionDoc) (as : List VersionDoc) (w : VersionDoc)
    (hr : latestOf as = some w) :
    latestOf (a :: as)
      = if a.publishedAt < w.publishedAt then some w else some a := by
  unfold latestOf
  rw [hr]

lemma latestOf_eq_none (l : List VersionDoc) (h : latestOf l = none) : l = [] := by
  cases l with
  | nil => rfl
  | cons v vs =>
    exfalso
    cases hr : latestOf vs with
    | none => rw [latestOf_cons_none v vs hr] at h; exact Option.noConfusion h
    | some w =>
      rw [latestOf_cons_some v vs w hr] at h
      by_cases hlt : v.publishedAt < w.publishedAt
      · rw [if_pos hlt] at h; exact Option.noConfusion h
      · rw [if_neg hlt] at h; exact Option.noConfusion h

lemma latestOf_mem (l : List VersionDoc) :
    ∀ v, latestOf l = some v → v ∈ l := by
  induction l with
  | nil => intro v h; simp [latestOf] at h
  | cons a as ih =>
    intro v h
    cases hr : latestOf as with
    | none =>
      rw [latestOf_cons_none a as hr, Option.some.injEq] at h
      subst h
      exact List.mem_cons_self _ _
    | some w =>
      rw [latestOf_cons_some a as w hr] at h
      by_cases hlt : a.publishedAt < w.publishedAt
      · rw [if_pos hlt, Option.some.injEq] at h
        rw [h] at hr
        exact List.mem_cons_of_mem a (ih v hr)
      · rw [if_neg hlt, Option.some.injEq] at h
        subst h
        exact List.mem_cons_self _ _

lemma latestOf_max (l : List VersionDoc) :
    ∀ v, latestOf l = some v → ∀ w ∈ l, w.publishedAt ≤ v.publishedAt := by
  induction l with
  | nil => intro v h; simp [latestOf] at h
  | cons a as ih =>
    intro v h w hw
    cases hr : latestOf as with
    | none =>
      have hnil : as = [] := latestOf_eq_none as hr
      subst hnil
      rw [latestOf_cons_none a [] hr, Option.some.injEq] at h
      subst h
      simp only [List.mem_singleton] at hw
      subst hw
      exact Nat.le_refl _
    | some m =>
      rw [latestOf_cons_some a as m hr] at h
      rcases List.mem_cons.mp hw with hw | hw
      · subst hw
        by_cases hlt : w.publishedAt < m.publishedAt
        · rw [if_pos hlt, Option.some.injEq] at h
          subst h
          exact Nat.le_of_lt hlt
        · rw [if_neg hlt, Option.some.injEq] at h
          subst h
          exact Nat.le_refl _
      · have hm := ih m hr w hw
        by_cases hlt : a.publishedAt < m.publishedAt
        · rw [if_pos hlt, Option.some.injEq] at h
          subst h
          exact hm
        · rw [if_neg hlt, Option.some.injEq] at h
          subst h
          exact Nat.le_trans hm (Nat.le_of_not_lt hlt)

lemma latestOf_of_ne_nil (l : List VersionDoc) (h : l ≠ []) :
    ∃ v, latestOf l = some v := by
  cases l with
  | nil => exact absurd rfl h
  | cons a as =>
    cases hr : latestOf as with
    | none => exact ⟨a, latestOf_cons_none a as hr⟩
    | some w =>
      by_cases hlt : a.publishedAt < w.publishedAt
      · exact ⟨w, by rw [latestOf_cons_some a as w hr, if_pos hlt]⟩
      · exact ⟨a, by rw [latestOf_cons_some a as w hr, if_neg hlt]⟩

lemma koaPublishTail_dup (hash : List Nat → Nat) (s : RegState) (pkgId userId : Nat)
    (ver descr fname : String) (buf : List Nat) (now : Nat) (v : VersionDoc)
    (h : s.versions.find? (fun v => v.package == pkgId && v.version == ver) = some v) :
    Koa.publishTail hash s pkgId userId ver descr fname buf now
      = ⟨.err 400 "版本已存在", s, s⟩ := by
  unfold Koa.publishTail
  rw [h]

lemma koaPublishTail_eq (hash : List Nat → Nat) (s : RegState) (pkgId userId : Nat)
    (ver descr fname : String) (buf : List Nat) (now : Nat)
    (h : s.versions.find? (fun v => v.package == pkgId && v.version == ver) = none) :
    Koa.publishTail hash s pkgId userId ver descr fname buf now =
      ⟨.ok 200 ⟨s.nextId + 1⟩,
       { s with blobs := s.blobs ++ [(s.nextId, buf)], nextId := s.nextId + 1 },
       { s with
          versions := s.versions ++
            [⟨s.nextId + 1, pkgId, ver, descr, some (hash buf), buf.length, s.nextId,
              fname, BsonId.str userId, now, some 0⟩],
          blobs := s.blobs ++ [(s.nextId, buf)],
          nextId := s.nextId + 1 + 1 }⟩ := by
  unfold Koa.publishTail
  rw [h]
  rfl

lemma honoPublishTail_dup (s : RegState) (pkgId userId : Nat)
    (ver descr fname : String) (buf : List Nat) (now : Nat) (v : VersionDoc)
    (h : s.versions.find? (fun v => v.package == pkgId && v.version == ver) = some v) :
    Hono.publishTail s pkgId userId ver descr fname buf now
      = ⟨.err 400 "版本已存在", s, s⟩ := by
  unfold Hono.publishTail
  rw [h]

lemma honoPublishTail_eq (s : RegState) (pkgId userId : Nat)
    (ver descr fname : String) (buf : List Nat) (now : Nat)
    (h : s.versions.find? (fun v => v.package == pkgId && v.version == ver) = none) :
    Hono.publishTail s pkgId userId ver descr fname buf now =
      ⟨.ok 200 ⟨s.nextId + 1⟩,
       { s with blobs := s.blobs ++ [(s.nextId, buf)], nextId := s.nextId + 1 },
       { s with
          versions := s.versions ++
            [⟨s.nextId + 1, pkgId, ver, descr, none, buf.length, s.nextId,
              fname, BsonId.oid userId, now, none⟩],
          blobs := s.blobs ++ [(s.nextId, buf)],
          nextId := s.nextId + 1 + 1 }⟩ := by
  unfold Hono.publishTail
  rw [h]
  rfl

/-- Claim C1 (code bug).  The claim says every publish or deletePackage by a
non-owner fails Forbidden and the same calls by the recorded owner succeed.
The backend controllers satisfy this (ownership is compared with
ObjectId.prototype.equals by value), but in the Koa implementation the
owner field stored by publish is the raw header string, so the ownership
check pkg.owner.equals(userId) of a later publish throws a TypeError which
the catch turns into a 500 response: evaluated on a store where alice
(user 0) owns package p, a second publish by alice herself fails 500
instead of succeeding, and a publish by bob (user 1) fails 500 instead of
403 Forbidden. -/
theorem c1_koa_ownership_check_throws :
    (Koa.publish hash0 kPub1 0 "p" "1.1.0" "d2" (some ⟨"b.bin", [4]⟩) 2).1
      = ApiResult.err 500 "pkg.owner.equals is not a function" ∧
    (Koa.publish hash0 kPub1 1 "p" "1.1.0" "d2" (some ⟨"b.bin", [4]⟩) 2).1
      = ApiResult.err 500 "pkg.owner.equals is not a function" := by
  constructor
  · decide
  · decide

/-- Claim C2 (code bug).  The claim says a publish of an already existing
(package, version) pair fails with the Conflict kind and leaves the state
unchanged.  The backend implementation does exactly that, but in the Koa
implementation the broken ownership check (see C1) throws before the
duplicate-version branch is ever reached, so the republish of p 1.0.0 by
its owner fails with the 500 catch-all (StorageFailure kind, not Conflict);
the state is still left unchanged. -/
theorem c2_koa_duplicate_version_no_conflict :
    Koa.publish hash0 kPub1 0 "p" "1.0.0" "d" (some ⟨"a.bin", [1, 2, 3]⟩) 3
      = (ApiResult.err 500 "pkg.owner.equals is not a function", kPub1) ∧
    errKind "pkg.owner.equals is not a function" = ErrKind.storageFailure := by
  constructor
  · decide
  · decide

/-- Claim C4 (code bug).  The claim says removeAccount deletes the User and
every Package the principal owns with its Versions and blobs, making the
packages unresolvable.  Evaluated on the Koa store where alice owns p: after
removeAccount the user document is gone, but the deleteMany filter compares
an ObjectId against the stored string owner and so deletes no package
(versions and blobs are not even addressed by the code, in either
implementation, and the backend removeAccount deletes only the user); p
stays fully resolvable by searchPackages, getLatestVersion and download. -/
theorem c4_remove_account_cascade_missing :
    kGone.users = [] ∧
    searchPackages kGone "p" = [pKoa1] ∧
    kGone.versions = [vKoa1] ∧
    (getLatestVersion kGone "p").1 = ApiResult.ok 200 (LatestResult.found vKoa1) ∧
    (download kGone "p" "1.0.0").1 = ApiResult.ok 200 ⟨2, "a.bin"⟩ := by
  refine ⟨?_, ?_, ?_, ?_, ?_⟩ <;> decide

/-- Claim C5 (code bug).  The claim says register fails Conflict when the
username exists and stores no new user.  The Koa register does check; the
backend register performs no duplicate-username lookup at all: registering
alice twice succeeds both times and stores two user documents with the same
username. -/
theorem c5_backend_register_ignores_duplicates :
    (Hono.register hA1 (some "alice") (some "pw2") pwH0 "k2").1
      = ApiResult.ok 201 ⟨1, "k2"⟩ ∧
    ((Hono.register hA1 (some "alice") (some "pw2") pwH0 "k2").2.users.map
        (fun u => u.username)) = ["alice", "alice"] := by
  constructor
  · decide
  · decide

/-- Claim C3, counterexample.  The claim says every successful publish
records a server-computed contentHash on the Version.  A successful backend
publish stores a version document with no sha256 field at all. -/
theorem c3_backend_records_no_hash :
    (Hono.publish hA1 0 (some "q") (some "1.0.0") (some "d")
        (some (.file "c.bin" [9])) 1).1 = ApiResult.ok 200 ⟨3⟩ ∧
    hPub1.versions.map (fun v => v.sha256) = [none] := by
  constructor
  · decide
  · decide

/-- Claim C6, counterexample.  The claim says a successful download
increments the downloadCount of the Version.  Evaluated on the Koa store
holding p 1.0.0 with downloads = 0: the download succeeds and returns the
state completely unchanged, the counter still 0 (no code path in either
implementation ever updates it). -/
theorem c6_download_does_not_increment :
    download kPub1 "p" "1.0.0" = (ApiResult.ok 200 ⟨2, "a.bin"⟩, kPub1) ∧
    kPub1.versions.map (fun v => v.downloads) = [some 0] := by
  constructor
  · decide
  · decide

/-- Claim C8, counterexample.  The claim says a successful login updates the
user lastLoginAt.  The backend login returns the api key but performs no
update: the state after the successful login is the unchanged store, whose
only user has no lastLogin field. -/
theorem c8_backend_login_no_lastlogin_update :
    Hono.login hA1 (some "alice") (some "pw") pwH0
      = (ApiResult.ok 200 ⟨0, "k1"⟩, hA1) ∧
    hA1.users.map (fun u => u.lastLogin) = [none] := by
  constructor
  · decide
  · decide

/-- Claim C10 (confirmed).  For every authenticated backend publish request
in which packageName, version or description is missing, or the file field
is absent or not a File object, the call fails with the 400 InvalidInput
error and the store is returned unchanged: the two checks precede every
findOne, insertOne and GridFS access in the controller. -/
theorem c10_publish_input_validation (s : RegState) (u : Nat)
    (pn ver d : Option String) (file : Option FileField) (now : Nat) :
    ((pn = none ∨ ver = none ∨ d = none) →
      Hono.publish s u pn ver d file now = (.err 400 "缺少必要字段", s) ∧
      errKind "缺少必要字段" = ErrKind.invalidInput) ∧
    (truthy pn = true → truthy ver = true → truthy d = true →
      (file = none ∨ file = some .notFile) →
      Hono.publish s u pn ver d file now = (.err 400 "文件未上传或格式错误", s) ∧
      errKind "文件未上传或格式错误" = ErrKind.invalidInput) := by
  constructor
  · intro hmiss
    have hfalse : (truthy pn && truthy ver && truthy d) = false := by
      rcases hmiss with h | h | h
      · subst h; rfl
      · subst h
        cases truthy pn <;> rfl
      · subst h
        cases truthy pn <;> cases truthy ver <;> rfl
    refine ⟨?_, by decide⟩
    unfold Hono.publish Hono.publishCore
    rw [hfalse]
    rfl
  · intro h1 h2 h3 hfile
    have htrue : (truthy pn && truthy ver && truthy d) = true := by
      rw [h1, h2, h3]
      rfl
    refine ⟨?_, by decide⟩
    unfold Hono.publish Hono.publishCore
    rw [htrue]
    rcases hfile with h | h <;> subst h <;> rfl

/-- Claim C10, witness: a publish with a missing packageName on the empty
store is rejected 400 with the store unchanged. -/
theorem c10_publish_input_validation_witness :
    Hono.publish s0 7 none (some "1.0.0") (some "d") (some (.file "a" [1])) 0
      = (.err 400 "缺少必要字段", s0) ∧
    errKind "缺少必要字段" = ErrKind.invalidInput :=
  (c10_publish_input_validation s0 7 none (some "1.0.0") (some "d")
      (some (.file "a" [1])) 0).1 (Or.inl rfl)

/-- Claim C6 (corrected).  Download fails 404 (NotFound kind) when the
package is unknown or the named version is absent under it; on success the
read stream is opened on the blob id recorded in the filePath of the found
version and its filename is served.  In every case the returned state is the
input state: in particular the downloads counter of the version is NOT
incremented, by either implementation (this is the corrected part of the
claim; the counterexample theorem shows the counter frozen at 0). -/
theorem c6_download_cases (s : RegState) (pn ver : String) :
    (s.packages.find? (fun p => p.name == pn) = none →
      download s pn ver = (.err 404 "包不存在", s) ∧
      errKind "包不存在" = ErrKind.notFound) ∧
    (∀ pkg, s.packages.find? (fun p => p.name == pn) = some pkg →
      s.versions.find? (fun v => v.package == pkg._id && v.version == ver) = none →
      download s pn ver = (.err 404 "版本不存在", s) ∧
      errKind "版本不存在" = ErrKind.notFound) ∧
    (∀ pkg vinfo, s.packages.find? (fun p => p.name == pn) = some pkg →
      s.versions.find? (fun v => v.package == pkg._id && v.version == ver) = some vinfo →
      download s pn ver = (.ok 200 ⟨vinfo.filePath, vinfo.filename⟩, s)) := by
  refine ⟨?_, ?_, ?_⟩
  · intro h
    refine ⟨?_, by decide⟩
    simp only [download, h]
  · intro pkg h1 h2
    refine ⟨?_, by decide⟩
    simp only [download, h1, h2]
  · intro pkg vinfo h1 h2
    simp only [download, h1, h2]

/-- Claim C6, witness: downloading an unknown package from the Koa store
kPub1 fails 404 NotFound. -/
theorem c6_download_cases_witness :
    download kPub1 "nope" "1.0.0" = (.err 404 "包不存在", kPub1) ∧
    errKind "包不存在" = ErrKind.notFound :=
  (c6_download_cases kPub1 "nope" "1.0.0").1 (by decide)

/-- Claim C7 (confirmed).  getLatestVersion fails 404 NotFound for an
unknown package, answers the explicit no-versions result for a package with
zero versions, and otherwise returns a version of the package with maximal
publishedAt; when one version has publishedAt strictly above every other
(in particular V2 in the publish-V1-then-V2 scenario with t1 before t2),
exactly that version is returned. -/
theorem c7_latest_version_selection (s : RegState) (pn : String) :
    (s.packages.find? (fun p => p.name == pn) = none →
      (getLatestVersion s pn).1 = .err 404 "包不存在" ∧
      errKind "包不存在" = ErrKind.notFound) ∧
    (∀ pkg, s.packages.find? (fun p => p.name == pn) = some pkg →
      (s.versions.filter (fun v => v.package == pkg._id) = [] →
        (getLatestVersion s pn).1 = .ok 200 LatestResult.noVersions) ∧
      (s.versions.filter (fun v => v.package == pkg._id) ≠ [] →
        ∃ v, (getLatestVersion s pn).1 = .ok 200 (.found v) ∧
          v ∈ s.versions.filter (fun w => w.package == pkg._id) ∧
          ∀ w ∈ s.versions.filter (fun w => w.package == pkg._id),
            w.publishedAt ≤ v.publishedAt) ∧
      (∀ v2, v2 ∈ s.versions.filter (fun w => w.package == pkg._id) →
        (∀ w ∈ s.versions.filter (fun w => w.package == pkg._id),
          w ≠ v2 → w.publishedAt < v2.publishedAt) →
        (getLatestVersion s pn).1 = .ok 200 (.found v2))) := by
  refine ⟨?_, ?_⟩
  · intro h
    refine ⟨?_, by decide⟩
    simp only [getLatestVersion, h]
  · intro pkg hfind
    refine ⟨?_, ?_, ?_⟩
    · intro hempty
      simp only [getLatestVersion, hfind, hempty, latestOf]
    · intro hne
      obtain ⟨v, hv⟩ := latestOf_of_ne_nil _ hne
      refine ⟨v, ?_, latestOf_mem _ v hv, latestOf_max _ v hv⟩
      simp only [getLatestVersion, hfind, hv]
    · intro v2 hmem hstrict
      have hne : s.versions.filter (fun w => w.package == pkg._id) ≠ [] := by
        intro hnil
        rw [hnil] at hmem
        exact absurd hmem (List.not_mem_nil v2)
      obtain ⟨v, hv⟩ := latestOf_of_ne_nil _ hne
      have hveq : v = v2 := by
        by_contra hvne
        have h1 := hstrict v (latestOf_mem _ v hv) hvne
        have h2 := latestOf_max _ v hv v2 hmem
        exact absurd (Nat.lt_of_lt_of_le h1 h2) (Nat.lt_irrefl _)
      rw [hveq] at hv
      simp only [getLatestVersion, hfind, hv]

/-- Claim C7, witness: on the backend store hPub2, where q holds versions
1.0.0 (publishedAt 1) and 1.1.0 (publishedAt 5), getLatestVersion returns
the 1.1.0 document. -/
theorem c7_latest_version_selection_witness :
    (getLatestVersion hPub2 "q").1 = .ok 200 (.found vHono2) :=
  ((c7_latest_version_selection hPub2 "q").2 ⟨1, "q", "d", BsonId.oid 0, 1, 1, none⟩
      (by decide)).2.2 vHono2 (by decide) (by decide)

/-- Claim C8 (corrected).  Login answers the user-absent branch (NotFound
kind of section 7) when no user has the given name, the wrong-password
branch (Unauthorized kind) when the password does not verify, and otherwise
returns the stored, unchanged apiKey of the user.  The Koa implementation
additionally updates lastLogin to the login time; the backend implementation
returns the store unchanged, performing no lastLogin update (the corrected
part; see the counterexample theorem). -/
theorem c8_login_cases (s : RegState) (un pw : String)
    (pwHash : String → String) (now : Nat) :
    ((s.users.find? (fun u => u.username == un) = none →
        Koa.login s un pw pwHash now = (.err 401 "用户不存在", s) ∧
        errKind "用户不存在" = ErrKind.notFound) ∧
     (∀ user, s.users.find? (fun u => u.username == un) = some user →
        (pwHash pw ≠ user.password →
          Koa.login s un pw pwHash now = (.err 401 "密码错误", s) ∧
          errKind "密码错误" = ErrKind.unauthorized) ∧
        (pwHash pw = user.password →
          Koa.login s un pw pwHash now =
            (.ok 200 ⟨user._id, user.apiKey⟩,
             { s with users := (updateFirst (fun u => u._id == user._id)
                 (fun u => { u with lastLogin := some now }) s.users) })))) ∧
    (truthy (some un) = true → truthy (some pw) = true →
      (s.users.find? (fun u => u.username == un) = none →
        Hono.login s (some un) (some pw) pwHash = (.err 404 "用户不存在", s)) ∧
      (∀ user, s.users.find? (fun u => u.username == un) = some user →
        (pwHash pw ≠ user.password →
          Hono.login s (some un) (some pw) pwHash = (.err 401 "密码错误", s)) ∧
        (pwHash pw = user.password →
          Hono.login s (some un) (some pw) pwHash
            = (.ok 200 ⟨user._id, user.apiKey⟩, s)))) := by
  refine ⟨⟨?_, ?_⟩, ?_⟩
  · intro h
    refine ⟨?_, by decide⟩
    simp only [Koa.login, h]
  · intro user hfind
    constructor
    · intro hne
      refine ⟨?_, by decide⟩
      have hb : (pwHash pw != user.password) = true := bne_iff_ne.mpr hne
      simp only [Koa.login, hfind, hb, if_true]
    · intro heq
      have hb : (pwHash pw != user.password) = false := by
        simp [heq]
      simp only [Koa.login, hfind, hb, Bool.false_eq_true, if_false]
  · intro h1 h2
    have htrue : (truthy (some un) && truthy (some pw)) = true := by
      rw [h1, h2]
      rfl
    constructor
    · intro hfind
      simp only [Hono.login, htrue, Bool.not_true, Bool.false_eq_true, if_false,
        Option.getD_some, hfind]
    · intro user hfind
      constructor
      · intro hne
        have hb : (pwHash pw != user.password) = true := bne_iff_ne.mpr hne
        simp only [Hono.login, htrue, Bool.not_true, Bool.false_eq_true, if_false,
          Option.getD_some, hfind, hb, if_true]
      · intro heq
        have hb : (pwHash pw != user.password) = false := by
          simp [heq]
        simp only [Hono.login, htrue, Bool.not_true, Bool.false_eq_true, if_false,
          Option.getD_some, hfind, hb]

/-- Claim C8, witness: on the Koa store kAlice, logging in as alice with the
right password returns her stored api key and stamps lastLogin. -/
theorem c8_login_cases_witness :
    Koa.login kAlice "alice" "pw" pwH0 9 =
      (.ok 200 ⟨0, "key1"⟩,
       { kAlice with users := (updateFirst (fun u => u._id == 0)
           (fun u => { u with lastLogin := some 9 }) kAlice.users) }) :=
  (((c8_login_cases kAlice "alice" "pw" pwH0 9).1.2
      ⟨0, "alice", "pwh", "key1", some 0, some 0⟩ (by decide)).2 (by decide))

lemma honoPublishCore_ok_shape (s : RegState) (u : Nat)
    (pn ver d : Option String) (fname : String) (bytes : List Nat) (now : Nat)
    (r : PublishOk) (s' : RegState)
    (h : Hono.publish s u pn ver d (some (.file fname bytes)) now = (.ok 200 r, s')) :
    ∃ base : RegState, ∃ pkgId : Nat,
      base.versions = s.versions ∧
      base.blobs = s.blobs ∧
      s.nextId ≤ base.nextId ∧
      Hono.publishCore s u pn ver d (some (.file fname bytes)) now =
        ⟨ApiResult.ok 200 ⟨base.nextId + 1⟩,
         { base with
            blobs := base.blobs ++ [(base.nextId, bytes)],
            nextId := base.nextId + 1 },
         { base with
            versions := base.versions ++
              [⟨base.nextId + 1, pkgId, ver.getD "", d.getD "", none, bytes.length,
                base.nextId, fname, BsonId.oid u, now, none⟩],
            blobs := base.blobs ++ [(base.nextId, bytes)],
            nextId := base.nextId + 1 + 1 }⟩ ∧
      s' = { base with
              versions := base.versions ++
                [⟨base.nextId + 1, pkgId, ver.getD "", d.getD "", none, bytes.length,
                  base.nextId, fname, BsonId.oid u, now, none⟩],
              blobs := base.blobs ++ [(base.nextId, bytes)],
              nextId := base.nextId + 1 + 1 } := by
  unfold Hono.publish at h
  cases htr : (truthy pn && truthy ver && truthy d) with
  | false =>
    exfalso
    simp [Hono.publishCore, htr] at h
  | true =>
    cases hfind : s.packages.find? (fun p => p.name == pn.getD "") with
    | some pkg =>
      cases heq : BsonId.equalsMethod pkg.owner (BsonId.oid u) with
      | none =>
        exfalso
        simp [Hono.publishCore, htr, hfind, heq] at h
      | some isOwner =>
        cases isOwner with
        | false =>
          exfalso
          simp [Hono.publishCore, htr, hfind, heq] at h
        | true =>
          cases hdup : s.versions.find?
              (fun v => v.package == pkg._id && v.version == ver.getD "") with
          | some vdup =>
            exfalso
            simp [Hono.publishCore, htr, hfind, heq,
              honoPublishTail_dup s pkg._id u (ver.getD "") (d.getD "")
                fname bytes now vdup hdup] at h
          | none =>
            have hcore : Hono.publishCore s u pn ver d (some (.file fname bytes)) now
                = Hono.publishTail s pkg._id u (ver.getD "") (d.getD "") fname bytes now := by
              simp only [Hono.publishCore, htr, Bool.not_true, Bool.false_eq_true,
                if_false, hfind, heq]
            rw [honoPublishTail_eq s pkg._id u (ver.getD "") (d.getD "")
              fname bytes now hdup] at hcore
            rw [hcore, Prod.mk.injEq] at h
            refine ⟨s, pkg._id, rfl, rfl, Nat.le_refl _, hcore, h.2.symm⟩
    | none =>
      cases hdup : s.versions.find?
          (fun v => v.package == s.nextId && v.version == ver.getD "") with
      | some vdup =>
        exfalso
        have hd := honoPublishTail_dup
          { s with
              packages := s.packages ++
                [⟨s.nextId, pn.getD "", d.getD "", BsonId.oid u, now, now, none⟩],
              nextId := s.nextId + 1 }
          s.nextId u (ver.getD "") (d.getD "") fname bytes now vdup hdup
        simp [Hono.publishCore, htr, hfind, hd] at h
      | none =>
        have hcore : Hono.publishCore s u pn ver d (some (.file fname bytes)) now
            = Hono.publishTail
                { s with
                    packages := s.packages ++
                      [⟨s.nextId, pn.getD "", d.getD "", BsonId.oid u, now, now, none⟩],
                    nextId := s.nextId + 1 }
                s.nextId u (ver.getD "") (d.getD "") fname bytes now := by
          simp only [Hono.publishCore, htr, Bool.not_true, Bool.false_eq_true,
            if_false, hfind]
        rw [honoPublishTail_eq
          { s with
              packages := s.packages ++
                [⟨s.nextId, pn.getD "", d.getD "", BsonId.oid u, now, now, none⟩],
              nextId := s.nextId + 1 }
          s.nextId u (ver.getD "") (d.getD "") fname bytes now hdup] at hcore
        rw [hcore, Prod.mk.injEq] at h
        exact ⟨{ s with
                  packages := s.packages ++
                    [⟨s.nextId, pn.getD "", d.getD "", BsonId.oid u, now, now, none⟩],
                  nextId := s.nextId + 1 },
               s.nextId, rfl, rfl, Nat.le_succ _, hcore, h.2.symm⟩

lemma koaPublishCore_ok_shape (hash : List Nat → Nat) (s : RegState) (u : Nat)
    (pn ver d fpath : String) (bytes : List Nat) (now : Nat)
    (r : PublishOk) (s' : RegState)
    (h : Koa.publish hash s u pn ver d (some ⟨fpath, bytes⟩) now = (.ok 200 r, s')) :
    ∃ base : RegState, ∃ pkgId : Nat,
      base.versions = s.versions ∧
      base.blobs = s.blobs ∧
      s.nextId ≤ base.nextId ∧
      Koa.publishCore hash s u pn ver d (some ⟨fpath, bytes⟩) now =
        ⟨ApiResult.ok 200 ⟨base.nextId + 1⟩,
         { base with
            blobs := base.blobs ++ [(base.nextId, bytes)],
            nextId := base.nextId + 1 },
         { base with
            versions := base.versions ++
              [⟨base.nextId + 1, pkgId, ver, d, some (hash bytes), bytes.length,
                base.nextId, basename fpath, BsonId.str u, now, some 0⟩],
            blobs := base.blobs ++ [(base.nextId, bytes)],
            nextId := base.nextId + 1 + 1 }⟩ ∧
      s' = { base with
              versions := base.versions ++
                [⟨base.nextId + 1, pkgId, ver, d, some (hash bytes), bytes.length,
                  base.nextId, basename fpath, BsonId.str u, now, some 0⟩],
              blobs := base.blobs ++ [(base.nextId, bytes)],
              nextId := base.nextId + 1 + 1 } := by
  unfold Koa.publish at h
  cases hfind : s.packages.find? (fun p => p.name == pn) with
  | some pkg =>
    cases heq : BsonId.equalsMethod pkg.owner (BsonId.str u) with
    | none =>
      exfalso
      simp [Koa.publishCore, hfind, heq] at h
    | some isOwner =>
      cases isOwner with
      | false =>
        exfalso
        simp [Koa.publishCore, hfind, heq] at h
      | true =>
        cases hdup : s.versions.find?
            (fun v => v.package == pkg._id && v.version == ver) with
        | some vdup =>
          exfalso
          simp [Koa.publishCore, hfind, heq,
            koaPublishTail_dup hash s pkg._id u ver d (basename fpath)
              bytes now vdup hdup] at h
        | none =>
          have hcore : Koa.publishCore hash s u pn ver d (some ⟨fpath, bytes⟩) now
              = Koa.publishTail hash s pkg._id u ver d (basename fpath) bytes now := by
            simp only [Koa.publishCore, hfind, heq, Bool.not_true, Bool.false_eq_true,
              if_false]
          rw [koaPublishTail_eq hash s pkg._id u ver d (basename fpath)
            bytes now hdup] at hcore
          rw [hcore, Prod.mk.injEq] at h
          refine ⟨s, pkg._id, rfl, rfl, Nat.le_refl _, hcore, h.2.symm⟩
  | none =>
    cases hdup : s.versions.find?
        (fun v => v.package == s.nextId && v.version == ver) with
    | some vdup =>
      exfalso
      have hd := koaPublishTail_dup hash
        { s with
            packages := s.packages ++
              [⟨s.nextId, pn, d, BsonId.str u, now, now, some 0⟩],
            nextId := s.nextId + 1 }
        s.nextId u ver d (basename fpath) bytes now vdup hdup
      simp [Koa.publishCore, hfind, hd] at h
    | none =>
      have hcore : Koa.publishCore hash s u pn ver d (some ⟨fpath, bytes⟩) now
          = Koa.publishTail hash
              { s with
                  packages := s.packages ++
                    [⟨s.nextId, pn, d, BsonId.str u, now, now, some 0⟩],
                  nextId := s.nextId + 1 }
              s.nextId u ver d (basename fpath) bytes now := by
        simp only [Koa.publishCore, hfind]
      rw [koaPublishTail_eq hash
        { s with
            packages := s.packages ++
              [⟨s.nextId, pn, d, BsonId.str u, now, now, some 0⟩],
            nextId := s.nextId + 1 }
        s.nextId u ver d (basename fpath) bytes now hdup] at hcore
      rw [hcore, Prod.mk.injEq] at h
      exact ⟨{ s with
                packages := s.packages ++
                  [⟨s.nextId, pn, d, BsonId.str u, now, now, some 0⟩],
                nextId := s.nextId + 1 },
             s.nextId, rfl, rfl, Nat.le_succ _, hcore, h.2.symm⟩

/-- Claim C9 (confirmed).  In both implementations a successful publish
performs the GridFS write strictly before the version insertOne: the state
of a publish interrupted between the two awaits already holds the final
blob list but still the original version list; a successful publish adds
exactly one blob entry and one version document; and along every trace of
the service, interrupted publishes included, every version document that
exists resolves its filePath to a stored blob (no operation ever deletes a
version or a blob, and deletePackage deletes the package row only). -/
theorem c9_blob_before_metadata (hash : List Nat → Nat) :
    (∀ s u pn ver d fname bytes now r s',
      Hono.publish s u pn ver d (some (.file fname bytes)) now = (.ok 200 r, s') →
      s'.blobs.length = s.blobs.length + 1 ∧
      s'.versions.length = s.versions.length + 1 ∧
      (Hono.publishCrashAfterBlob s u pn ver d (some (.file fname bytes)) now).blobs
        = s'.blobs ∧
      (Hono.publishCrashAfterBlob s u pn ver d (some (.file fname bytes)) now).versions
        = s.versions) ∧
    (∀ s u pn ver d fpath bytes now r s',
      Koa.publish hash s u pn ver d (some ⟨fpath, bytes⟩) now = (.ok 200 r, s') →
      s'.blobs.length = s.blobs.length + 1 ∧
      s'.versions.length = s.versions.length + 1 ∧
      (Koa.publishCrashAfterBlob hash s u pn ver d (some ⟨fpath, bytes⟩) now).blobs
        = s'.blobs ∧
      (Koa.publishCrashAfterBlob hash s u pn ver d (some ⟨fpath, bytes⟩) now).versions
        = s.versions) ∧
    (∀ t, Reachable hash t → versionsResolve t) := by
  refine ⟨?_, ?_, ?_⟩
  · intro s u pn ver d fname bytes now r s' h
    obtain ⟨base, pkgId, hv, hb, hn, hcore, hs'⟩ :=
      honoPublishCore_ok_shape s u pn ver d fname bytes now r s' h
    subst hs'
    refine ⟨?_, ?_, ?_, ?_⟩
    · simp [hb]
    · simp [hv]
    · unfold Hono.publishCrashAfterBlob
      rw [hcore]
    · unfold Hono.publishCrashAfterBlob
      rw [hcore]
      exact hv
  · intro s u pn ver d fpath bytes now r s' h
    obtain ⟨base, pkgId, hv, hb, hn, hcore, hs'⟩ :=
      koaPublishCore_ok_shape hash s u pn ver d fpath bytes now r s' h
    subst hs'
    refine ⟨?_, ?_, ?_, ?_⟩
    · simp [hb]
    · simp [hv]
    · unfold Koa.publishCrashAfterBlob
      rw [hcore]
    · unfold Koa.publishCrashAfterBlob
      rw [hcore]
      exact hv
  · intro t ht v hv
    obtain ⟨b, hb, -⟩ := (reachable_storeInv ht).2 v hv
    exact ⟨b, hb⟩

/-- Claim C9, witness: the backend publish of q 1.0.0 on the one-user store
hA1 adds exactly one blob, its crash state still holds no version, and the
resulting store hPub1 (a reachable state) has every version resolving to a
blob. -/
theorem c9_blob_before_metadata_witness :
    hPub1.blobs.length = hA1.blobs.length + 1 ∧
    (Hono.publishCrashAfterBlob hA1 0 (some "q") (some "1.0.0") (some "d")
        (some (.file "c.bin" [9])) 1).versions = hA1.versions ∧
    versionsResolve hPub1 := by
  have h := (c9_blob_before_metadata hash0).1 hA1 0 (some "q") (some "1.0.0")
    (some "d") "c.bin" [9] 1 ⟨3⟩ hPub1 (by decide)
  exact ⟨h.1, h.2.2.2,
    (c9_blob_before_metadata hash0).2.2 hPub1
      (Reachable.honoPublish hA1 0 (some "q") (some "1.0.0") (some "d")
        (some (.file "c.bin" [9])) 1
        (Reachable.honoRegister s0 (some "alice") (some "pw") pwH0 "k1"
          Reachable.init))⟩

/-- Claim C3, amended (corrected).  In the Koa implementation every
successful publish records sha256 = digest of the received bytes on the new
version document, whose filePath resolves to a blob holding exactly those
bytes; and in every reachable store, a download that resolves a version
carrying a recorded sha256 serves bytes whose digest equals that recorded
value.  (The backend implementation records no digest, see the
counterexample theorem.)  The digest function is an arbitrary parameter,
standing for sha256 which lives in the crypto library. -/
theorem c3_koa_hash_recorded_roundtrip (hash : List Nat → Nat) :
    (∀ s u pn ver d fpath bytes now r s',
      (∀ e ∈ s.blobs, e.1 < s.nextId) →
      Koa.publish hash s u pn ver d (some ⟨fpath, bytes⟩) now = (.ok 200 r, s') →
      ∃ vdoc, vdoc ∈ s'.versions ∧ vdoc.sha256 = some (hash bytes) ∧
        lookupBlob vdoc.filePath s'.blobs = some bytes) ∧
    (∀ t pn ver vdoc p h0, Reachable hash t →
      versionLookup t pn ver = some vdoc →
      (download t pn ver).1 = .ok 200 p →
      vdoc.sha256 = some h0 →
      ∃ b, servedBytes t p = some b ∧ hash b = h0) := by
  constructor
  · intro s u pn ver d fpath bytes now r s' hfresh h
    obtain ⟨base, pkgId, hv, hb, hn, hcore, hs'⟩ :=
      koaPublishCore_ok_shape hash s u pn ver d fpath bytes now r s' h
    subst hs'
    refine ⟨⟨base.nextId + 1, pkgId, ver, d, some (hash bytes), bytes.length,
      base.nextId, basename fpath, BsonId.str u, now, some 0⟩, ?_, rfl, ?_⟩
    · exact List.mem_append_right _ (List.mem_singleton_self _)
    · have hfr : ∀ e ∈ base.blobs, e.1 ≠ base.nextId := by
        intro e he
        rw [hb] at he
        exact Nat.ne_of_lt (lt_of_lt_of_le (hfresh e he) hn)
      exact lookupBlob_append_fresh base.blobs base.nextId bytes hfr
  · intro t pn ver vdoc p h0 ht hvl hdl hsha
    have hinv := (reachable_storeInv ht).2
    cases hfind : t.packages.find? (fun q => q.name == pn) with
    | none =>
      exfalso
      simp [versionLookup, hfind] at hvl
    | some pkg =>
      simp only [versionLookup, hfind] at hvl
      have hmem : vdoc ∈ t.versions := List.mem_of_find?_eq_some hvl
      obtain ⟨b, hb, hsh⟩ := hinv vdoc hmem
      simp only [download, hfind, hvl, ApiResult.ok.injEq, true_and] at hdl
      subst hdl
      exact ⟨b, hb, hsh h0 hsha⟩

/-- Claim C3, witness: on the reachable Koa store kPub1, the published
version of p carries sha256 = hash0 of the three uploaded bytes, and the
download of p 1.0.0 serves bytes whose hash0 digest equals that recorded
value. -/
theorem c3_koa_hash_recorded_roundtrip_witness :
    (∃ vdoc, vdoc ∈ kPub1.versions ∧ vdoc.sha256 = some (hash0 [1, 2, 3]) ∧
      lookupBlob vdoc.filePath kPub1.blobs = some [1, 2, 3]) ∧
    (∃ b, servedBytes kPub1 ⟨2, "a.bin"⟩ = some b ∧ hash0 b = 6) :=
  ⟨(c3_koa_hash_recorded_roundtrip hash0).1 kAlice 0 "p" "1.0.0" "d" "a.bin"
      [1, 2, 3] 1 ⟨3⟩ kPub1 (by decide) (by decide),
   (c3_koa_hash_recorded_roundtrip hash0).2 kPub1 "p" "1.0.0" vKoa1 ⟨2, "a.bin"⟩ 6
      (Reachable.koaPublish kAlice 0 "p" "1.0.0" "d" (some ⟨"a.bin", [1, 2, 3]⟩) 1
        (Reachable.koaRegister s0 "alice" "pw" pwH0 "key1" 0 Reachable.init))
      (by decide) (by decide) (by decide)⟩
